import Mathlib

/-!
# Verification of the nebelbot routing core

A shallow embedding of the message-routing core of the bot
(`src/core/bot.py`, `src/core/chat.py`, `src/core/plugin.py`,
`src/core/help.py`, `src/utils/common.py`) together with proofs of the
behavioural claims about it.

Conventions of the embedding:

* Python strings become Lean `String`s; `len` is `String.length`
  (both count unicode code points).
* Python dictionaries that the code only builds, queries by key and
  iterates in insertion order become association lists
  `List (key × value)`; `d[k] = v` is modelled by `dictSet` (replace in
  place or append) and `k in d` / `d[k]` by `dictContains` / `dictFind`.
* External Telegram calls (role lookup, user lookup) are passed in as
  explicit function arguments.
* Python truthiness of strings, lists and options is modelled
  explicitly where the code relies on it (`x or y`, `x and y or z`).
-/

namespace Nebel

/-! ## Association-list dictionaries (Python `dict` with insertion order) -/

/-- `d[k] = v` on a Python dict: replace the value in place if the key is
present, otherwise append the new binding at the end. -/
def dictSet {κ α : Type} [DecidableEq κ] (d : List (κ × α)) (k : κ) (v : α) :
    List (κ × α) :=
  if d.any (fun p => p.1 = k) then
    d.map (fun p => if p.1 = k then (k, v) else p)
  else
    d ++ [(k, v)]

/-- `k in d` on a Python dict. -/
def dictContains {κ α : Type} [DecidableEq κ] (d : List (κ × α)) (k : κ) :
    Bool :=
  d.any (fun p => p.1 = k)

/-- `d[k]` / `d.get(k)` on a Python dict. -/
def dictFind {κ α : Type} [DecidableEq κ] (d : List (κ × α)) (k : κ) :
    Option α :=
  (d.find? (fun p => p.1 = k)).map (fun p => p.2)

/-! ## `utils/common.py`: `sanitize_name` and `pascal2snake` -/

/-- `string.ascii_letters ++ string.digits ++ string.punctuation` plus the
two cyrillic alphabets from `sanitize_name` in `src/utils/common.py`. -/
def allowedChars : List Char :=
  ("abcdefghijklmnopqrstuvwxyzABCDEFGHIJKLMNOPQRSTUVWXYZ" ++
   "0123456789" ++
   "!\"#$%&\x27()*+,-./:;<=>?@[\\]^_`\x7b|\x7d~" ++
   "йцукенгшщзхїфівапролджєячсмитьбю" ++
   "ЙЦУКЕНГШЩЗХЇФІВАПРОЛДЖЄЯЧСМИТЬБЮ").data

/-- `utils.common.sanitize_name`: keep only the allowed characters,
order preserved. -/
def sanitize_name (name : String) : String :=
  ⟨name.data.filter (fun c => decide (c ∈ allowedChars))⟩

/-- `utils.common.pascal2snake`, step 1: `re.sub('[A-Z]', lambda m:
'_' + m.group(0).lower(), s)` — every ASCII capital becomes an
underscore followed by its lowercase form. -/
def capitalSub (s : List Char) : List Char :=
  s.flatMap (fun c =>
    if 'A' ≤ c ∧ c ≤ 'Z' then ['_', c.toLower] else [c])

/-- `str.strip('_')`: drop leading and trailing underscores. -/
def stripUnderscores (s : List Char) : List Char :=
  ((s.dropWhile (fun c => c = '_')).reverse.dropWhile
    (fun c => c = '_')).reverse

/-- `utils.common.pascal2snake`: substitute capitals, then strip
underscores from both ends. -/
def pascal2snake (s : String) : String :=
  ⟨stripUnderscores (capitalSub s.data)⟩

/-! ## `Bot.get_name` (`src/core/bot.py` lines 302–324) -/

/-- `Bot.get_name`.  The Python body is
`(len(fn) < threshold or len(fn) <= len(un)) and fn or un`, which by
Python truthiness returns `un` whenever the sanitized full name is the
empty string, even if the length condition holds. -/
def get_name (username full_name : String)
    (full_name_threshold : Nat := 16) : String :=
  if ((sanitize_name full_name).length < full_name_threshold ∨
      (sanitize_name full_name).length ≤ (sanitize_name username).length) ∧
      sanitize_name full_name ≠ ""
  then sanitize_name full_name
  else sanitize_name username

/-! ## `src/core/chat.py`: conversation state -/

/-- The serializable state of a `Chat`.  The `get_name` callback the
Python constructor also receives is a fresh closure supplied by the bot
on every construction and is not part of the persisted state, so it is
kept out of the state record. -/
structure Chat where
  active : Bool
  members : List (Int × String)
deriving DecidableEq, Repr

/-- A raw serialized chat entry: a plain dict in which either field may
be missing (`data.get('active', False)` / `data.get('members', ())`). -/
structure RawChat where
  active : Option Bool := none
  members : Option (List (Int × String)) := none
deriving DecidableEq, Repr

/-- `Chat.from_dict`: missing `active` defaults to `False`, missing
`members` defaults to an empty collection. -/
def Chat.from_dict (data : RawChat) : Chat :=
  { active := data.active.getD false
    members := data.members.getD [] }

/-- `Chat.to_dict`: both fields are always emitted. -/
def Chat.to_dict (c : Chat) : RawChat :=
  { active := some c.active
    members := some c.members }

/-- Loading the persisted chat store at boot
(`src/core/bot.py` lines 50–52): `Chat.from_dict` applied per entry. -/
def loadChats (raw : List (Int × RawChat)) : List (Int × Chat) :=
  raw.map (fun p => (p.1, Chat.from_dict p.2))

/-- Dumping the chat store at shutdown (`src/core/bot.py` lines
105–107): `Chat.to_dict` applied per entry. -/
def dumpChats (chats : List (Int × Chat)) : List (Int × RawChat) :=
  chats.map (fun p => (p.1, Chat.to_dict p.2))

/-! ## `src/core/plugin.py`: the plugin registry -/

/-- `Plugin.register_plugin` applied to an explicit string name: the
duplicate check runs inside the returned decorator, raising
`ValueError` when the name is already registered, otherwise storing the
class. -/
def register_plugin_named {α : Type} (name : String) (cls : α)
    (plugins : List (String × α)) :
    Except String (List (String × α)) :=
  if dictContains plugins name then
    Except.error ("A plugin with name " ++ name ++ " is already registered")
  else
    Except.ok (dictSet plugins name cls)

/-- `Plugin.register_plugin` applied directly to a class: the name is
derived with `pascal2snake` from the class name and the class is stored
with no duplicate check. -/
def register_plugin_cls {α : Type} (clsName : String) (cls : α)
    (plugins : List (String × α)) : List (String × α) :=
  dictSet plugins (pascal2snake clsName) cls

/-! ## `src/core/bot.py`: messages, authorization and predicate composition -/

/-- The fields of a `telebot.types.Message` the predicates read:
`message.text`, `message.date` (epoch seconds), `message.from_user.id`
and `message.chat.id`. -/
structure Message where
  text : String
  date : Int
  from_user_id : Int
  chat_id : Int
deriving DecidableEq, Repr

/-- The `Bot` fields the predicates close over: `_master_id`,
`_max_message_length`, `_default_only_roles`, `_chats` and
`_started_at`. -/
structure BotState where
  master_id : Int
  max_message_length : Nat
  default_only_roles : List String
  chats : List (Int × Chat)
  started_at : Int
deriving Repr

/-- `Bot.make_from_user_predicate` (`src/core/bot.py` lines 355–379).
The role lookup `self._bot.get_chat_member(chat_id, uid).status` is an
external Telegram call, passed in as `get_role`. -/
def make_from_user_predicate (bot : BotState)
    (get_role : Int → Int → String) (only_roles : List String)
    (m : Message) : Bool :=
  if m.from_user_id = bot.master_id then
    true
  else if (dictFind bot.chats m.chat_id).all (fun c => !c.active) then
    false
  else
    decide (get_role m.chat_id m.from_user_id ∈ only_roles)

/-- The role-set resolution inside `Bot.make_predicate`:
`only_roles or self._default_only_roles` — an empty collection is falsy
in Python, so it falls back to the configured default. -/
def resolveOnlyRoles (bot : BotState) (only_roles : List String) :
    List String :=
  if only_roles.isEmpty then bot.default_only_roles else only_roles

/-- `Bot.make_predicate` (`src/core/bot.py` lines 326–353): build the
list `[from-user check, length check]`, insert the freshness check at
index 1 when `only_new`, append the extra predicates, and conjoin the
list with `all(p(m) for p in predicates)` (left-to-right,
short-circuit). -/
def make_predicate (bot : BotState) (get_role : Int → Int → String)
    (only_roles : List String) (extra_predicates : List (Message → Bool))
    (only_new : Bool := true) : Message → Bool :=
  let base : List (Message → Bool) :=
    [make_from_user_predicate bot get_role (resolveOnlyRoles bot only_roles),
     fun m => decide (m.text.length < bot.max_message_length)]
  let withFresh : List (Message → Bool) :=
    if only_new then
      base.take 1 ++ [fun m => decide (bot.started_at ≤ m.date)] ++
        base.drop 1
    else base
  let predicates := withFresh ++ extra_predicates
  fun m => predicates.all (fun p => p m)

/-! ## `src/core/help.py`: the help document -/

/-- The state of a `Help` object: the three optional headers (default
`None`) and the two append-only entry lists. -/
structure Help where
  header : Option String := none
  abilities_header : Option String := none
  examples_header : Option String := none
  abilities : List (String × String) := []
  examples : List String := []
deriving Repr

/-- Python `f"{x}"` on an optional string: `None` prints as `"None"`. -/
def pyStr (o : Option String) : String :=
  match o with
  | none => "None"
  | some s => s

/-- The sort key of the abilities listing:
`lambda p: len(p[0]) // 4`. -/
def abilityKey (p : String × String) : Nat :=
  p.1.length / 4

/-- Python `sorted(abilities, key=abilityKey)` is a stable ascending
sort by the key; the stable sort is modelled by `List.insertionSort`
over `abilityKey · ≤ abilityKey ·` (both are stable, hence produce the
same list). -/
def sortAbilities (l : List (String × String)) : List (String × String) :=
  l.insertionSort (fun a b => abilityKey a ≤ abilityKey b)

/-- The padded usage cell: `f"{usage:<{ceil(len(usage) / 8) * 8}}"` —
left-justify to the next multiple of 8. -/
def padUsage (usage : String) : String :=
  usage ++ String.mk (List.replicate
    (((usage.length + 7) / 8) * 8 - usage.length) ' ')

/-- One rendered ability line. -/
def renderAbility (p : String × String) : String :=
  "- `" ++ padUsage p.1 ++ "` - " ++ p.2

/-- `Help._make_abilities_section`: `None` when no ability was added,
otherwise the header line (an absent header renders as `"None"`)
followed by the sorted listing. -/
def make_abilities_section (h : Help) : Option String :=
  if h.abilities.isEmpty then none
  else some (pyStr h.abilities_header ++ "\n" ++
    String.intercalate "\n" ((sortAbilities h.abilities).map renderAbility))

/-- `Help._make_examples_section`. -/
def make_examples_section (h : Help) : Option String :=
  if h.examples.isEmpty then none
  else some (pyStr h.examples_header ++ "\n" ++
    String.intercalate "\n" (h.examples.map (fun e => "- `" ++ e ++ "`")))

/-- The generator filter inside `Help.make_message`:
`[header, abilities section, examples section]` with the falsy entries
(`None` and the empty string) dropped by `if section`. -/
def visibleSections (h : Help) : List String :=
  ([h.header, make_abilities_section h,
    make_examples_section h].filterMap id).filter (fun s => s ≠ "")

/-- `Help.make_message`: join the truthy sections with a blank line. -/
def make_message (h : Help) : String :=
  String.intercalate "\n\n" (visibleSections h)

/-! ## Dictionary lemmas -/

theorem dictFind_dictSet {κ α : Type} [DecidableEq κ]
    (d : List (κ × α)) (k k' : κ) (v : α) :
    dictFind (dictSet d k v) k' =
      if k' = k then some v else dictFind d k' := by
  have H1 : ∀ l : List (κ × α), l.any (fun p => p.1 = k) = true →
      (l.map (fun p => if p.1 = k then (k, v) else p)).find?
        (fun p => p.1 = k) = some (k, v) := by
    intro l hl
    induction l with
    | nil => simp at hl
    | cons q r ih =>
      by_cases hq : q.1 = k
      · simp [List.find?, hq]
      · simp only [List.any_cons, Bool.or_eq_true, decide_eq_true_eq] at hl
        simpa [List.find?, hq] using ih (hl.resolve_left hq)
  have H2 : ∀ l : List (κ × α), k' ≠ k →
      (l.map (fun p => if p.1 = k then (k, v) else p)).find?
        (fun p => p.1 = k') = l.find? (fun p => p.1 = k') := by
    intro l hne
    induction l with
    | nil => rfl
    | cons q r ih =>
      by_cases hq : q.1 = k
      · have hq' : ¬q.1 = k' := fun h => hne (h ▸ hq)
        simpa [List.find?, hq, Ne.symm hne, hq'] using ih
      · by_cases hq' : q.1 = k'
        · simp [List.find?, hq, hq', hne]
        · simpa [List.find?, hq, hq'] using ih
  have H3 : ∀ l : List (κ × α), l.any (fun p => p.1 = k) = false →
      (l ++ [(k, v)]).find? (fun p => p.1 = k) = some (k, v) := by
    intro l hl
    induction l with
    | nil => simp [List.find?]
    | cons q r ih =>
      simp only [List.any_cons, Bool.or_eq_false_iff, decide_eq_false_iff_not]
        at hl
      simpa [List.find?, hl.1] using ih hl.2
  have H4 : ∀ l : List (κ × α), k' ≠ k →
      (l ++ [(k, v)]).find? (fun p => p.1 = k') =
        l.find? (fun p => p.1 = k') := by
    intro l hne
    induction l with
    | nil => simp [List.find?, Ne.symm hne]
    | cons q r ih =>
      by_cases hq : q.1 = k'
      · simp [List.find?, hq]
      · simpa [List.find?, hq] using ih
  by_cases hany : d.any (fun p => p.1 = k)
  · rw [dictSet, if_pos hany]
    by_cases hk : k' = k
    · subst hk
      unfold dictFind
      rw [H1 d hany, if_pos rfl]
      rfl
    · rw [if_neg hk]
      unfold dictFind
      rw [H2 d hk]
  · rw [dictSet, if_neg hany]
    by_cases hk : k' = k
    · subst hk
      unfold dictFind
      rw [H3 d (Bool.eq_false_iff.mpr hany), if_pos rfl]
      rfl
    · rw [if_neg hk]
      unfold dictFind
      rw [H4 d hk]

/-! ## Claim C4: the name-resolver decision rule -/

/-- C4 counterexample: the claim says the resolver returns the sanitized
full name whenever its length is below the threshold, regardless of the
handle.  For the empty full name (sanitized length `0 < 16`) and handle
`"joe"`, `Bot.get_name` returns `"joe"`, not the empty sanitized full
name: the Python idiom `cond and fn or un` falls through to `un` when
`fn` is the empty (falsy) string. -/
theorem C4_counterexample :
    (sanitize_name "").length < 16 ∧
    get_name "joe" "" 16 = "joe" ∧
    get_name "joe" "" 16 ≠ sanitize_name "" := by
  refine ⟨by decide, by decide, by decide⟩

/-- C4 (amended): for every handle and full name (both first sanitized),
the resolver returns the sanitized full name whenever it is *non-empty*
and its length is below the threshold or at most the sanitized handle's
length; it returns the sanitized handle when the sanitized full name is
at least threshold-long and strictly longer than the handle, and also
whenever the sanitized full name is empty. -/
theorem C4_get_name_rule (username full_name : String) (t : Nat) :
    (sanitize_name full_name ≠ "" →
      ((sanitize_name full_name).length < t ∨
        (sanitize_name full_name).length ≤ (sanitize_name username).length) →
      get_name username full_name t = sanitize_name full_name) ∧
    (t ≤ (sanitize_name full_name).length →
      (sanitize_name username).length < (sanitize_name full_name).length →
      get_name username full_name t = sanitize_name username) ∧
    (sanitize_name full_name = "" →
      get_name username full_name t = sanitize_name username) := by
  refine ⟨fun hne hlen => ?_, fun h1 h2 => ?_, fun he => ?_⟩
  · simp only [get_name]
    rw [if_pos ⟨hlen, hne⟩]
  · simp only [get_name]
    rw [if_neg]
    rintro ⟨hlen | hlen, -⟩ <;> omega
  · simp only [get_name]
    rw [if_neg]
    rintro ⟨-, hne⟩
    exact hne he

/-- Witness for C4 at concrete inputs: a short full name wins, a long
full name loses to a shorter handle. -/
theorem C4_get_name_rule_witness :
    get_name "johnny" "Bob" 16 = "Bob" ∧
    get_name "jo" "Archibald Throckmorton" 5 = "jo" := by
  constructor
  · exact ((C4_get_name_rule "johnny" "Bob" 16).1 (by decide)
      (by decide)).trans (by decide)
  · exact ((C4_get_name_rule "jo" "Archibald Throckmorton" 5).2.1
      (by decide) (by decide)).trans (by decide)

/-! ## Claim C9: empty sanitized full names fall back to the handle -/

/-- C9: when the full name sanitizes to the empty string, `get_name`
returns the sanitized username (which may itself be empty); and the
resolver never returns the empty string when the sanitized username is
non-empty. -/
theorem C9_empty_full_name (username full_name : String) (t : Nat) :
    (sanitize_name full_name = "" →
      get_name username full_name t = sanitize_name username) ∧
    (sanitize_name username ≠ "" → get_name username full_name t ≠ "") := by
  constructor
  · intro he
    simp only [get_name]
    rw [if_neg]
    rintro ⟨-, hne⟩
    exact hne he
  · intro hu
    simp only [get_name]
    split
    · next hcond => exact hcond.2
    · next _ => exact hu

/-- Witness for C9: a full name of nothing but spaces (spaces are not in
the allowed alphabet) resolves to the handle. -/
theorem C9_empty_full_name_witness : get_name "joe" "  " 16 = "joe" := by
  exact ((C9_empty_full_name "joe" "  " 16).1 (by decide)).trans (by decide)

/-! ## Claim C6: conversation-state serialization round-trips -/

/-- C6: `load (dump store) = store` for every store, and a raw entry
with a missing `active` field defaults to `false`, with a missing
`members` field to the empty collection. -/
theorem C6_round_trip (store : List (Int × Chat)) (r : RawChat) :
    loadChats (dumpChats store) = store ∧
    (r.active = none → (Chat.from_dict r).active = false) ∧
    (r.members = none → (Chat.from_dict r).members = []) := by
  refine ⟨?_, fun ha => ?_, fun hm => ?_⟩
  · induction store with
    | nil => rfl
    | cons p l ih =>
      simpa [loadChats, dumpChats, Chat.from_dict, Chat.to_dict] using ih
  · simp [Chat.from_dict, ha]
  · simp [Chat.from_dict, hm]

/-- Witness for C6: a two-conversation store survives a round-trip and a
fully-absent raw entry loads as inactive with no members. -/
theorem C6_round_trip_witness :
    loadChats (dumpChats [(5, ⟨true, [(1, "ann")]⟩), (7, ⟨false, []⟩)]) =
      [(5, ⟨true, [(1, "ann")]⟩), (7, ⟨false, []⟩)] ∧
    Chat.from_dict {} = ⟨false, []⟩ := by
  have h := C6_round_trip [(5, ⟨true, [(1, "ann")]⟩), (7, ⟨false, []⟩)] {}
  refine ⟨h.1, ?_⟩
  have h1 := h.2.1 rfl
  have h2 := h.2.2 rfl
  rw [show (Chat.from_dict {}) =
    ⟨(Chat.from_dict {}).active, (Chat.from_dict {}).members⟩ from rfl, h1, h2]

/-! ## Claim C7: duplicate explicit plugin names are an error -/

/-- C7: registering a plugin under an explicit name that is already
present raises the registration error and never returns a new
registry (so the existing registration is not overwritten). -/
theorem C7_register_duplicate_name {α : Type} (name : String) (cls : α)
    (plugins : List (String × α)) (h : dictContains plugins name = true) :
    register_plugin_named name cls plugins =
      Except.error
        ("A plugin with name " ++ name ++ " is already registered") ∧
    ∀ reg : List (String × α),
      register_plugin_named name cls plugins ≠ Except.ok reg := by
  constructor
  · simp [register_plugin_named, h]
  · intro reg hcontra
    simp [register_plugin_named, h] at hcontra

/-- Witness for C7 on a one-entry registry. -/
theorem C7_register_duplicate_name_witness :
    register_plugin_named "alpha" (1 : Nat) [("alpha", (0 : Nat))] =
      Except.error "A plugin with name alpha is already registered" := by
  have h := (C7_register_duplicate_name "alpha" (1 : Nat)
    [("alpha", (0 : Nat))] (by decide)).1
  rw [h]
  rfl

/-! ## Claim C10: auto-named registration silently overwrites -/

/-- C10: `register_plugin` applied directly to a class derives the name
with `pascal2snake` and performs no duplicate check: an existing
registration under the derived name is replaced by the new class (no
error — the operation is total), and all other names are untouched. -/
theorem C10_register_cls_silent_overwrite {α : Type} (clsName : String)
    (cls old : α) (plugins : List (String × α)) :
    (dictFind plugins (pascal2snake clsName) = some old →
      dictFind (register_plugin_cls clsName cls plugins)
        (pascal2snake clsName) = some cls) ∧
    (∀ k, k ≠ pascal2snake clsName →
      dictFind (register_plugin_cls clsName cls plugins) k =
        dictFind plugins k) := by
  constructor
  · intro _
    rw [register_plugin_cls, dictFind_dictSet, if_pos rfl]
  · intro k hk
    rw [register_plugin_cls, dictFind_dictSet, if_neg hk]

/-- Witness for C10: re-registering `WeatherPlugin` over an existing
`weather_plugin` entry replaces it and leaves other entries alone. -/
theorem C10_register_cls_silent_overwrite_witness :
    dictFind (register_plugin_cls "WeatherPlugin" (2 : Nat)
      [("weather_plugin", 1), ("other", 5)]) "weather_plugin" = some 2 ∧
    dictFind (register_plugin_cls "WeatherPlugin" (2 : Nat)
      [("weather_plugin", 1), ("other", 5)]) "other" = some 5 := by
  have h := C10_register_cls_silent_overwrite "WeatherPlugin" (2 : Nat)
    (1 : Nat) [("weather_plugin", 1), ("other", 5)]
  have e : pascal2snake "WeatherPlugin" = "weather_plugin" := by decide
  constructor
  · rw [← e]
    exact h.1 (by rw [e]; decide)
  · exact (h.2 "other" (by rw [e]; decide)).trans (by decide)

/-! ## Claim C1: the authorization predicate -/

/-- C1: a sender whose id equals the master id is permitted
unconditionally and independently of the role-lookup function (so no
role lookup can influence the outcome); a non-master sender is denied
whenever the conversation is unknown or inactive, regardless of role;
and in a known active conversation a non-master sender is permitted iff
the looked-up role is in the allowed set. -/
theorem C1_authorization (bot : BotState) (roles : List String)
    (get_role : Int → Int → String) (m : Message) :
    (m.from_user_id = bot.master_id →
      ∀ gr : Int → Int → String,
        make_from_user_predicate bot gr roles m = true) ∧
    (m.from_user_id ≠ bot.master_id →
      (dictFind bot.chats m.chat_id = none ∨
        ∃ c, dictFind bot.chats m.chat_id = some c ∧ c.active = false) →
      make_from_user_predicate bot get_role roles m = false) ∧
    (m.from_user_id ≠ bot.master_id →
      ∀ c, dictFind bot.chats m.chat_id = some c → c.active = true →
        (make_from_user_predicate bot get_role roles m = true ↔
          get_role m.chat_id m.from_user_id ∈ roles)) := by
  refine ⟨fun hm gr => ?_, fun hm hc => ?_, fun hm c hc hact => ?_⟩
  · simp [make_from_user_predicate, hm]
  · rcases hc with hc | ⟨c, hc, hact⟩
    · simp [make_from_user_predicate, hm, hc]
    · simp [make_from_user_predicate, hm, hc, hact]
  · simp [make_from_user_predicate, hm, hc, hact]

/-- Witness for C1: the master passes in an unknown conversation, a
plain member fails in an inactive one and passes in an active one. -/
theorem C1_authorization_witness :
    make_from_user_predicate
      ⟨1, 100, ["administrator"], [(10, ⟨true, []⟩), (11, ⟨false, []⟩)], 50⟩
      (fun _ _ => "member") ["member"] ⟨"hi", 60, 1, 99⟩ = true ∧
    make_from_user_predicate
      ⟨1, 100, ["administrator"], [(10, ⟨true, []⟩), (11, ⟨false, []⟩)], 50⟩
      (fun _ _ => "member") ["member"] ⟨"hi", 60, 2, 11⟩ = false ∧
    make_from_user_predicate
      ⟨1, 100, ["administrator"], [(10, ⟨true, []⟩), (11, ⟨false, []⟩)], 50⟩
      (fun _ _ => "member") ["member"] ⟨"hi", 60, 2, 10⟩ = true := by
  refine ⟨?_, ?_, ?_⟩
  · exact (C1_authorization _ ["member"] (fun _ _ => "member")
      ⟨"hi", 60, 1, 99⟩).1 rfl _
  · exact (C1_authorization _ ["member"] (fun _ _ => "member")
      ⟨"hi", 60, 2, 11⟩).2.1 (by decide)
      (Or.inr ⟨⟨false, []⟩, by decide, rfl⟩)
  · exact ((C1_authorization _ ["member"] (fun _ _ => "member")
      ⟨"hi", 60, 2, 10⟩).2.2 (by decide) ⟨true, []⟩ (by decide) rfl).mpr
      (by decide)

/-! ## Claim C2: empty explicit role sets -/

/-- C2 counterexample: the claim says an explicitly supplied empty role
set denies every non-privileged sender.  But `only_roles or
self._default_only_roles` treats the empty (falsy) collection exactly
like an absent one: with default roles `["administrator"]` the composed
predicate built from an explicit empty role set still accepts the
non-master administrator `2`. -/
theorem C2_counterexample :
    make_predicate ⟨1, 100, ["administrator"], [(10, ⟨true, []⟩)], 50⟩
      (fun _ _ => "administrator") [] [] true ⟨"hello", 60, 2, 10⟩ = true ∧
    (⟨"hello", 60, 2, 10⟩ : Message).from_user_id ≠
      (⟨1, 100, ["administrator"], [(10, ⟨true, []⟩)], 50⟩ :
        BotState).master_id := by
  refine ⟨by decide, by decide⟩

/-- C2 (amended): an explicitly supplied *empty* role set is treated the
same as no role set at all — both fall back to the process-wide default
role set — while a non-empty explicit role set is used as supplied. -/
theorem C2_role_resolution (bot : BotState) (gr : Int → Int → String)
    (extras : List (Message → Bool)) (only_new : Bool) (m : Message) :
    make_predicate bot gr [] extras only_new m =
      make_predicate bot gr bot.default_only_roles extras only_new m ∧
    resolveOnlyRoles bot [] = bot.default_only_roles ∧
    (∀ roles : List String, roles ≠ [] →
      resolveOnlyRoles bot roles = roles) := by
  refine ⟨?_, rfl, fun roles hne => ?_⟩
  · have h : resolveOnlyRoles bot bot.default_only_roles =
        resolveOnlyRoles bot [] := by
      simp only [resolveOnlyRoles]
      cases bot.default_only_roles <;> simp
    simp only [make_predicate, h]
  · simp only [resolveOnlyRoles]
    cases roles with
    | nil => exact absurd rfl hne
    | cons a l => simp

/-- Witness for C2: with default roles `["administrator"]`, the
predicate built from an explicit empty role set accepts the non-master
administrator, and a non-empty role set resolves to itself. -/
theorem C2_role_resolution_witness :
    make_predicate ⟨1, 100, ["administrator"], [(10, ⟨true, []⟩)], 50⟩
      (fun _ _ => "administrator") [] [] true ⟨"yo", 60, 2, 10⟩ = true ∧
    resolveOnlyRoles ⟨1, 100, ["administrator"], [(10, ⟨true, []⟩)], 50⟩
      ["creator"] = ["creator"] := by
  constructor
  · exact ((C2_role_resolution
      ⟨1, 100, ["administrator"], [(10, ⟨true, []⟩)], 50⟩
      (fun _ _ => "administrator") [] true ⟨"yo", 60, 2, 10⟩).1).trans
      (by decide)
  · exact (C2_role_resolution
      ⟨1, 100, ["administrator"], [(10, ⟨true, []⟩)], 50⟩
      (fun _ _ => "administrator") [] true ⟨"yo", 60, 2, 10⟩).2.2
      ["creator"] (by decide)

/-! ## Claim C5: the composed predicate -/

/-- C5: the composed predicate is the left-to-right short-circuit
conjunction of the role/privilege check, then (iff `only_new`) the
freshness check `message.date ≥ started_at`, then the strict length
check, then every extra predicate; a stale message is rejected when
`only_new` is on and judged without the freshness conjunct when it is
off, and the strict length check is present in every composed
predicate. -/
theorem C5_predicate_composition (bot : BotState)
    (gr : Int → Int → String) (roles : List String)
    (extras : List (Message → Bool)) (only_new : Bool) (m : Message) :
    make_predicate bot gr roles extras only_new m =
      (make_from_user_predicate bot gr (resolveOnlyRoles bot roles) m &&
        (!only_new || decide (bot.started_at ≤ m.date)) &&
        decide (m.text.length < bot.max_message_length) &&
        extras.all (fun p => p m)) ∧
    (only_new = true → m.date < bot.started_at →
      make_predicate bot gr roles extras only_new m = false) ∧
    (only_new = false →
      make_predicate bot gr roles extras only_new m =
        (make_from_user_predicate bot gr (resolveOnlyRoles bot roles) m &&
          decide (m.text.length < bot.max_message_length) &&
          extras.all (fun p => p m))) ∧
    (bot.max_message_length ≤ m.text.length →
      make_predicate bot gr roles extras only_new m = false) := by
  have main : make_predicate bot gr roles extras only_new m =
      (make_from_user_predicate bot gr (resolveOnlyRoles bot roles) m &&
        (!only_new || decide (bot.started_at ≤ m.date)) &&
        decide (m.text.length < bot.max_message_length) &&
        extras.all (fun p => p m)) := by
    cases only_new <;>
      simp [make_predicate, List.all_cons, List.all_nil, List.all_append,
        Bool.and_assoc]
  refine ⟨main, fun h1 h2 => ?_, fun h0 => ?_, fun hl => ?_⟩
  · subst h1
    rw [main]
    have hd : (bot.started_at ≤ m.date) = False := eq_false (by omega)
    simp [hd]
  · subst h0
    rw [main]
    simp
  · rw [main]
    have hd : (m.text.length < bot.max_message_length) = False :=
      eq_false (by omega)
    simp [hd]

/-- Witness for C5: a stale message is rejected with `only_new = true`
and accepted with `only_new = false`; an over-long message is always
rejected. -/
theorem C5_predicate_composition_witness :
    make_predicate ⟨1, 100, ["administrator"], [(10, ⟨true, []⟩)], 50⟩
      (fun _ _ => "administrator") [] [] true ⟨"hello", 40, 2, 10⟩ = false ∧
    make_predicate ⟨1, 100, ["administrator"], [(10, ⟨true, []⟩)], 50⟩
      (fun _ _ => "administrator") [] [] false ⟨"hello", 40, 2, 10⟩ = true ∧
    make_predicate ⟨1, 3, ["administrator"], [(10, ⟨true, []⟩)], 50⟩
      (fun _ _ => "administrator") [] [] true ⟨"hello", 60, 2, 10⟩ = false := by
  refine ⟨?_, ?_, ?_⟩
  · exact (C5_predicate_composition
      ⟨1, 100, ["administrator"], [(10, ⟨true, []⟩)], 50⟩
      (fun _ _ => "administrator") [] [] true ⟨"hello", 40, 2, 10⟩).2.1
      rfl (by decide)
  · exact ((C5_predicate_composition
      ⟨1, 100, ["administrator"], [(10, ⟨true, []⟩)], 50⟩
      (fun _ _ => "administrator") [] [] false ⟨"hello", 40, 2, 10⟩).2.2.1
      rfl).trans (by decide)
  · exact (C5_predicate_composition
      ⟨1, 3, ["administrator"], [(10, ⟨true, []⟩)], 50⟩
      (fun _ _ => "administrator") [] [] true ⟨"hello", 60, 2, 10⟩).2.2.2
      (by decide)

/-! ## Help-document lemmas -/

/-- The abilities sort is stable per key: for every bucket value, the
sorted list restricted to that bucket is the original list restricted to
that bucket (so ties keep insertion order, and the sort is a
permutation). -/
theorem filter_key_sortAbilities (l : List (String × String)) (n : Nat) :
    (sortAbilities l).filter (fun a => abilityKey a = n) =
      l.filter (fun a => abilityKey a = n) := by
  induction l with
  | nil => rfl
  | cons a l ih =>
    have hsplit : sortAbilities (a :: l) =
        ((sortAbilities l).takeWhile
          (fun b => ¬abilityKey a ≤ abilityKey b)) ++
        a :: ((sortAbilities l).dropWhile
          (fun b => ¬abilityKey a ≤ abilityKey b)) :=
      List.insertionSort_cons_eq_take_drop _ a l
    have htd : ((sortAbilities l).takeWhile
          (fun b => ¬abilityKey a ≤ abilityKey b)) ++
        ((sortAbilities l).dropWhile
          (fun b => ¬abilityKey a ≤ abilityKey b)) = sortAbilities l :=
      List.takeWhile_append_dropWhile _ _
    by_cases hk : abilityKey a = n
    · have htw : ((sortAbilities l).takeWhile
          (fun b => ¬abilityKey a ≤ abilityKey b)).filter
            (fun b => abilityKey b = n) = [] := by
        rw [List.filter_eq_nil_iff]
        intro b hb
        have hlt := List.mem_takeWhile_imp hb
        simp only [decide_eq_true_eq] at hlt ⊢
        omega
      have hdw : ((sortAbilities l).dropWhile
          (fun b => ¬abilityKey a ≤ abilityKey b)).filter
            (fun b => abilityKey b = n) =
          l.filter (fun b => abilityKey b = n) := by
        have := congrArg (List.filter (fun b => abilityKey b = n)) htd
        rw [List.filter_append, htw, List.nil_append] at this
        exact this.trans ih
      rw [hsplit, List.filter_append, htw, List.nil_append,
        List.filter_cons_of_pos (by simpa using hk), hdw,
        List.filter_cons_of_pos (by simpa using hk)]
    · have hfa : (sortAbilities (a :: l)).filter (fun b => abilityKey b = n) =
          (sortAbilities l).filter (fun b => abilityKey b = n) := by
        rw [hsplit, List.filter_append,
          List.filter_cons_of_neg (by simpa using hk), ← List.filter_append,
          htd]
      rw [hfa, ih, List.filter_cons_of_neg (by simpa using hk)]

/-! ## Claim C8: the rendered help message -/

/-- C8: with zero abilities and zero examples the message is exactly the
top header (empty string when absent or empty); a zero-entry abilities
or examples section is omitted entirely, its header included; the top
header appears as the first section iff it is present and non-empty;
and the displayed abilities are sorted ascending by `length ∕ 4` with
ties keeping insertion order. -/
theorem C8_help_message (h : Help) :
    (h.abilities = [] → h.examples = [] →
      make_message h = h.header.getD "") ∧
    (h.examples = [] →
      make_message h = make_message {h with examples_header := none}) ∧
    (h.abilities = [] →
      make_message h = make_message {h with abilities_header := none}) ∧
    (h.header = none ∨ h.header = some "" →
      visibleSections h = visibleSections {h with header := none}) ∧
    (∀ s, h.header = some s → s ≠ "" →
      visibleSections h = s :: visibleSections {h with header := none}) ∧
    List.Pairwise (fun a b => abilityKey a ≤ abilityKey b)
      (sortAbilities h.abilities) ∧
    (∀ n, (sortAbilities h.abilities).filter (fun a => abilityKey a = n) =
      h.abilities.filter (fun a => abilityKey a = n)) := by
  obtain ⟨hd, ah, eh, ab, ex⟩ := h
  refine ⟨fun hab hex => ?_, fun hex => ?_, fun hab => ?_, fun hh => ?_,
    fun s hs hne => ?_, ?_, fun n => ?_⟩
  · subst hab; subst hex
    rcases hd with _ | s
    · rfl
    · by_cases hs : s = ""
      · subst hs; rfl
      · simp only [make_message, visibleSections, make_abilities_section,
          make_examples_section]
        simp [hs]
        rfl
  · subst hex
    simp [make_message, visibleSections, make_examples_section,
      make_abilities_section]
  · subst hab
    simp [make_message, visibleSections, make_abilities_section,
      make_examples_section]
  · replace hh : hd = none ∨ hd = some "" := hh
    rcases hh with hh | hh <;> subst hh <;>
      simp [visibleSections, make_abilities_section, make_examples_section]
  · replace hs : hd = some s := hs
    subst hs
    simp [visibleSections, make_abilities_section, make_examples_section,
      hne]
  · haveI : IsTotal (String × String)
        (fun a b => abilityKey a ≤ abilityKey b) :=
      ⟨fun a b => Nat.le_total _ _⟩
    haveI : IsTrans (String × String)
        (fun a b => abilityKey a ≤ abilityKey b) :=
      ⟨fun _ _ _ => Nat.le_trans⟩
    exact List.sorted_insertionSort _ _
  · exact filter_key_sortAbilities ab n

/-- Witness for C8: only a header yields just the header, and the bucket
filter of a concrete sorted abilities list keeps insertion order. -/
theorem C8_help_message_witness :
    make_message ⟨some "Top", some "A", some "E", [], []⟩ = "Top" ∧
    (sortAbilities [("abcdefgh", "x"), ("abc", "y"), ("ab", "z")]).filter
      (fun a => abilityKey a = 0) = [("abc", "y"), ("ab", "z")] := by
  constructor
  · exact ((C8_help_message ⟨some "Top", some "A", some "E", [], []⟩).1
      rfl rfl).trans rfl
  · exact ((C8_help_message
      ⟨some "Top", some "A", some "E",
        [("abcdefgh", "x"), ("abc", "y"), ("ab", "z")], []⟩).2.2.2.2.2.2
      0).trans (by decide)

/-! ## The address matcher (`Bot.make_address_predicate`)

`make_address_predicate` builds the Python regex

    ("^" + name.lower() + "(?:,| |, )(" + phrase.lower() + ")")
      .replace(" ", "\\s+")

note that the `.replace` applies to the *whole* concatenated pattern
(implicit string-literal concatenation binds tighter than the method
call), so the separator alternatives become `,`, `\s+` and `,\s+`, and
matches it against `message.text.lower()`, anchored at the start
(`re.match`).  The handler then takes `message.text[match.span()[1]:]`
as the subject.

The embedding models the generated pattern for names and phrases
without regex metacharacters (the bot's sanitized name contains none;
the spaces of the phrase are the one metacharacter the construction
itself introduces, via `\s+`): a `Pat` of literal characters, `\s+`
tokens, concatenation and alternation.  `Pat.remainders` enumerates the
possible match remainders in Python's backtracking preference order
(leftmost alternative first, greedy `+` longest first), so the head of
the list is exactly the match Python's `re` engine finds, and `\s` is
modelled over the ASCII whitespace characters.  Python's `str.lower`
is modelled per-character (`pyLower`). -/

/-- Python `\s` on the ASCII range: space, tab, newline, carriage
return, vertical tab, form feed. -/
def isWs (c : Char) : Bool :=
  c = ' ' ∨ c = '\t' ∨ c = '\n' ∨ c = '\r' ∨ c = '\x0b' ∨ c = '\x0c'

/-- The regex fragment generated by `make_address_predicate`: literal
characters, `\s+`, concatenation and (non-capturing) alternation. -/
inductive Pat where
  | eps
  | lit (c : Char)
  | ws
  | seq (p q : Pat)
  | alt (p q : Pat)

/-- The remainders `\s+` can leave on `t`, greedy-first: consume the
whole leading whitespace run, then ever shorter non-empty parts. -/
def wsRemainders (t : List Char) : List (List Char) :=
  (List.range (t.takeWhile isWs).length).map
    (fun i => t.drop ((t.takeWhile isWs).length - i))

/-- All remainders a pattern can leave on `t`, in Python's backtracking
preference order: first alternative first, greedy `+` longest first,
choice points of the left factor of a concatenation outermost. -/
def Pat.remainders : Pat → List Char → List (List Char)
  | .eps, t => [t]
  | .lit _, [] => []
  | .lit c, d :: r => if d = c then [r] else []
  | .ws, t => wsRemainders t
  | .seq p q, t => (Pat.remainders p t).flatMap (fun m => Pat.remainders q m)
  | .alt p q, t => Pat.remainders p t ++ Pat.remainders q t

/-- The match Python's backtracking engine finds: the most preferred
remainder, `None` when the pattern cannot match at position 0. -/
def pyMatch (p : Pat) (t : List Char) : Option (List Char) :=
  (p.remainders t).head?

/-- The compilation of one pattern character after the global
`.replace(" ", "\\s+")`: a space is `\s+`, all else literal. -/
def tokChar (c : Char) : Pat := if c = ' ' then .ws else .lit c

/-- Concatenation of a token list. -/
def catList : List Pat → Pat
  | [] => .eps
  | p :: ps => .seq p (catList ps)

/-- A string segment of the generated pattern (spaces already turned
into `\s+` by the global replace). -/
def strPat (s : List Char) : Pat := catList (s.map tokChar)

/-- A fully literal string segment (no space substitution); used only
to state the claim's reading of the pattern. -/
def litStrPat (s : List Char) : Pat := catList (s.map Pat.lit)

/-- The separator alternatives as the code generates them:
`(?:,| |, ).replace(" ", "\\s+") = (?:,|\s+|,\s+)`. -/
def sepPat : Pat := .alt (.lit ',') (.alt .ws (.seq (.lit ',') .ws))

/-- The separator alternatives as the claim states them: exactly `,`,
one space, or comma-space. -/
def claimedSepPat : Pat :=
  .alt (.lit ',') (.alt (.lit ' ') (.seq (.lit ',') (.lit ' ')))

/-- Python `str.lower()`, per character. -/
def pyLower (s : String) : String := ⟨s.data.map Char.toLower⟩

/-- The full generated pattern `^name(?:,|\s+|,\s+)(phrase)` (with the
space substitution applied throughout). -/
def addressPat (name phrase : String) : Pat :=
  .seq (strPat (pyLower name).data)
    (.seq sepPat (strPat (pyLower phrase).data))

/-- `Bot.make_address_predicate` composed with the subject extraction
of the handler: `None` on no match, otherwise the remainder of the
original text after the matched phrase (the pattern ends with the
phrase group, so the match end is the group end). -/
def make_address_predicate (name phrase text : String) : Option String :=
  match pyMatch (addressPat name phrase) (pyLower text).data with
  | none => none
  | some r => some ⟨text.data.drop (text.data.length - r.length)⟩

/-- The matcher the claim describes: the *literal* agent name, then
exactly one of the separators `,`, `' '`, `', '`, then the phrase with
every literal space matching one-or-more whitespace. -/
def claimed_address_matcher (name phrase text : String) : Option String :=
  match pyMatch (.seq (litStrPat (pyLower name).data)
      (.seq claimedSepPat (strPat (pyLower phrase).data)))
      (pyLower text).data with
  | none => none
  | some r => some ⟨text.data.drop (text.data.length - r.length)⟩

/-! ### Declarative semantics of the generated pattern -/

/-- `Matches p t r`: pattern `p` can consume a prefix of `t` leaving
exactly the remainder `r`. -/
inductive Matches : Pat → List Char → List Char → Prop where
  | eps {t} : Matches .eps t t
  | lit {c t} : Matches (.lit c) (c :: t) t
  | ws {pre t} (hne : pre ≠ []) (hws : ∀ c ∈ pre, isWs c = true) :
      Matches .ws (pre ++ t) t
  | seq {p q t m r} (h₁ : Matches p t m) (h₂ : Matches q m r) :
      Matches (.seq p q) t r
  | altL {p q t r} (h : Matches p t r) : Matches (.alt p q) t r
  | altR {p q t r} (h : Matches q t r) : Matches (.alt p q) t r

theorem matches_eps_iff {t r : List Char} : Matches .eps t r ↔ r = t :=
  ⟨fun h => by cases h; rfl, fun h => h ▸ Matches.eps⟩

theorem matches_lit_iff {c : Char} {t r : List Char} :
    Matches (.lit c) t r ↔ t = c :: r :=
  ⟨fun h => by cases h; rfl, fun h => h ▸ Matches.lit⟩

theorem matches_ws_iff {t r : List Char} :
    Matches .ws t r ↔
      ∃ pre, pre ≠ [] ∧ (∀ c ∈ pre, isWs c = true) ∧ t = pre ++ r := by
  constructor
  · intro h
    cases h with
    | ws hne hws => exact ⟨_, hne, hws, rfl⟩
  · rintro ⟨pre, hne, hws, rfl⟩
    exact Matches.ws hne hws

theorem matches_seq_iff {p q : Pat} {t r : List Char} :
    Matches (.seq p q) t r ↔ ∃ m, Matches p t m ∧ Matches q m r := by
  constructor
  · intro h
    cases h with
    | seq h₁ h₂ => exact ⟨_, h₁, h₂⟩
  · rintro ⟨m, h₁, h₂⟩
    exact Matches.seq h₁ h₂

theorem matches_alt_iff {p q : Pat} {t r : List Char} :
    Matches (.alt p q) t r ↔ Matches p t r ∨ Matches q t r := by
  constructor
  · intro h
    cases h with
    | altL h => exact Or.inl h
    | altR h => exact Or.inr h
  · rintro (h | h)
    · exact Matches.altL h
    · exact Matches.altR h

/-- Characters of a short-enough `take` of `t` all lie in the leading
whitespace run. -/
theorem ws_of_mem_take : ∀ (t : List Char) (k : Nat),
    k ≤ (t.takeWhile isWs).length → ∀ c ∈ t.take k, isWs c = true := by
  intro t
  induction t with
  | nil => intro k _ c hc; simp at hc
  | cons a t ih =>
    intro k hk c hc
    cases k with
    | zero => simp at hc
    | succ k' =>
      by_cases ha : isWs a = true
      · rw [List.takeWhile_cons_of_pos ha] at hk
        simp only [List.length_cons, Nat.succ_le_succ_iff] at hk
        rcases (List.mem_cons.mp hc) with hc | hc
        · exact hc ▸ ha
        · exact ih k' hk c hc
      · rw [List.takeWhile_cons_of_neg ha] at hk
        simp at hk

/-- Prepending an all-whitespace run extends the leading whitespace
run. -/
theorem takeWhile_ws_append : ∀ (pre r : List Char),
    (∀ c ∈ pre, isWs c = true) →
    (pre ++ r).takeWhile isWs = pre ++ r.takeWhile isWs := by
  intro pre
  induction pre with
  | nil => intro r _; rfl
  | cons a pre ih =>
    intro r h
    rw [List.cons_append,
      List.takeWhile_cons_of_pos (h a (List.mem_cons_self a pre)),
      ih r (fun c hc => h c (List.mem_cons_of_mem a hc)), List.cons_append]

/-- The possible `\s+` remainders are precisely the drops by a positive
amount of leading whitespace. -/
theorem mem_wsRemainders {t r : List Char} :
    r ∈ wsRemainders t ↔
      ∃ k, 1 ≤ k ∧ k ≤ (t.takeWhile isWs).length ∧ r = t.drop k := by
  unfold wsRemainders
  simp only [List.mem_map, List.mem_range]
  constructor
  · rintro ⟨i, hi, rfl⟩
    exact ⟨(t.takeWhile isWs).length - i, by omega, by omega, rfl⟩
  · rintro ⟨k, hk1, hk2, rfl⟩
    refine ⟨(t.takeWhile isWs).length - k, by omega, ?_⟩
    congr 1
    omega

/-- Soundness and completeness of the remainder enumeration with
respect to the declarative semantics. -/
theorem mem_remainders_iff (p : Pat) : ∀ (t r : List Char),
    r ∈ p.remainders t ↔ Matches p t r := by
  induction p with
  | eps =>
    intro t r
    simp [Pat.remainders, matches_eps_iff]
  | lit c =>
    intro t r
    cases t with
    | nil => simp [Pat.remainders, matches_lit_iff]
    | cons d t' =>
      by_cases hd : d = c
      · subst hd
        simp [Pat.remainders, matches_lit_iff, eq_comm]
      · simp [Pat.remainders, hd, matches_lit_iff]
  | ws =>
    intro t r
    rw [show Pat.remainders .ws t = wsRemainders t from rfl,
      mem_wsRemainders, matches_ws_iff]
    constructor
    · rintro ⟨k, hk1, hk2, rfl⟩
      refine ⟨t.take k, ?_, ws_of_mem_take t k hk2,
        (List.take_append_drop k t).symm⟩
      have hlen : (t.takeWhile isWs).length ≤ t.length :=
        (List.takeWhile_sublist _).length_le
      intro hnil
      have := congrArg List.length hnil
      simp only [List.length_take, List.length_nil] at this
      omega
    · rintro ⟨pre, hne, hws, rfl⟩
      refine ⟨pre.length, ?_, ?_, (List.drop_left pre r).symm⟩
      · have := List.length_pos.mpr hne
        omega
      · rw [takeWhile_ws_append pre r hws, List.length_append]
        omega
  | seq p q ihp ihq =>
    intro t r
    rw [show Pat.remainders (.seq p q) t =
      (Pat.remainders p t).flatMap (fun m => Pat.remainders q m) from rfl,
      List.mem_flatMap, matches_seq_iff]
    constructor
    · rintro ⟨m, hm, hr⟩
      exact ⟨m, (ihp t m).mp hm, (ihq m r).mp hr⟩
    · rintro ⟨m, hm, hr⟩
      exact ⟨m, (ihp t m).mpr hm, (ihq m r).mpr hr⟩
  | alt p q ihp ihq =>
    intro t r
    rw [show Pat.remainders (.alt p q) t =
      Pat.remainders p t ++ Pat.remainders q t from rfl,
      List.mem_append, matches_alt_iff, ihp, ihq]

/-- A successful `pyMatch` is a real match. -/
theorem pyMatch_eq_some_imp {p : Pat} {t r : List Char}
    (h : pyMatch p t = some r) : Matches p t r :=
  (mem_remainders_iff p t r).mp (List.mem_of_mem_head? h)

/-- A failing `pyMatch` means no match exists at all. -/
theorem pyMatch_eq_none_iff {p : Pat} {t : List Char} :
    pyMatch p t = none ↔ ∀ r, ¬Matches p t r := by
  unfold pyMatch
  rw [List.head?_eq_none_iff, List.eq_nil_iff_forall_not_mem]
  constructor
  · intro h r hr
    exact h r ((mem_remainders_iff p t r).mpr hr)
  · intro h r hr
    exact h r ((mem_remainders_iff p t r).mp hr)

/-! ### The claim's vocabulary: instances of a phrase and separators -/

/-- `SpaceInst s inst`: `inst` is an instance of the pattern segment
`s` in which every literal space has been replaced by a non-empty run
of whitespace characters and every other character by itself. -/
inductive SpaceInst : List Char → List Char → Prop where
  | nil : SpaceInst [] []
  | ws {rest inst} (run : List Char) (hne : run ≠ [])
      (hws : ∀ c ∈ run, isWs c = true) (h : SpaceInst rest inst) :
      SpaceInst (' ' :: rest) (run ++ inst)
  | ch {c rest inst} (hc : c ≠ ' ') (h : SpaceInst rest inst) :
      SpaceInst (c :: rest) (c :: inst)

/-- The separator instances the generated pattern accepts: a bare
comma, a non-empty whitespace run, or a comma followed by a non-empty
whitespace run. -/
def SepInst (s : List Char) : Prop :=
  s = [','] ∨ (s ≠ [] ∧ ∀ c ∈ s, isWs c = true) ∨
    (∃ w, s = ',' :: w ∧ w ≠ [] ∧ ∀ c ∈ w, isWs c = true)

/-- The declarative reading of a successful address match on the
lowered text: literal-with-whitespace-runs name instance, then a
separator instance, then a phrase instance, then the remainder. -/
def AddressSpec (name phrase text : String) : Prop :=
  ∃ ni si pi rem, SpaceInst (pyLower name).data ni ∧ SepInst si ∧
    SpaceInst (pyLower phrase).data pi ∧
    (pyLower text).data = ni ++ si ++ pi ++ rem

theorem matches_strPat_iff : ∀ (s t r : List Char),
    Matches (strPat s) t r ↔ ∃ inst, SpaceInst s inst ∧ t = inst ++ r := by
  intro s
  induction s with
  | nil =>
    intro t r
    rw [show strPat [] = .eps from rfl, matches_eps_iff]
    constructor
    · intro h
      exact ⟨[], SpaceInst.nil, h ▸ rfl⟩
    · rintro ⟨inst, hinst, rfl⟩
      cases hinst
      rfl
  | cons c s' ih =>
    intro t r
    rw [show strPat (c :: s') = .seq (tokChar c) (strPat s') from rfl,
      matches_seq_iff]
    by_cases hc : c = ' '
    · subst hc
      rw [show tokChar ' ' = .ws from rfl]
      constructor
      · rintro ⟨m, hw, hrest⟩
        obtain ⟨pre, hne, hws, rfl⟩ := matches_ws_iff.mp hw
        obtain ⟨inst, hinst, rfl⟩ := (ih m r).mp hrest
        exact ⟨pre ++ inst, SpaceInst.ws pre hne hws hinst,
          (List.append_assoc pre inst r).symm⟩
      · rintro ⟨inst, hinst, rfl⟩
        cases hinst with
        | ws run hne hws h =>
          exact ⟨_ ++ r, matches_ws_iff.mpr ⟨run, hne, hws,
            (List.append_assoc run _ r)⟩, (ih _ r).mpr ⟨_, h, rfl⟩⟩
        | ch hc _ => exact absurd rfl hc
    · rw [show tokChar c = .lit c from if_neg hc]
      constructor
      · rintro ⟨m, hl, hrest⟩
        obtain rfl := matches_lit_iff.mp hl
        obtain ⟨inst, hinst, rfl⟩ := (ih m r).mp hrest
        exact ⟨c :: inst, SpaceInst.ch hc hinst, rfl⟩
      · rintro ⟨inst, hinst, rfl⟩
        cases hinst with
        | ws run hne hws h => exact absurd rfl hc
        | ch _ h =>
          exact ⟨_ ++ r, matches_lit_iff.mpr rfl, (ih _ r).mpr ⟨_, h, rfl⟩⟩

theorem matches_sepPat_iff {t r : List Char} :
    Matches sepPat t r ↔ ∃ si, SepInst si ∧ t = si ++ r := by
  rw [show sepPat = .alt (.lit ',') (.alt .ws (.seq (.lit ',') .ws))
    from rfl, matches_alt_iff, matches_alt_iff, matches_seq_iff]
  constructor
  · rintro (h | h | ⟨m, hl, hw⟩)
    · exact ⟨[','], Or.inl rfl, matches_lit_iff.mp h⟩
    · obtain ⟨pre, hne, hws, rfl⟩ := matches_ws_iff.mp h
      exact ⟨pre, Or.inr (Or.inl ⟨hne, hws⟩), rfl⟩
    · obtain rfl := matches_lit_iff.mp hl
      obtain ⟨pre, hne, hws, rfl⟩ := matches_ws_iff.mp hw
      exact ⟨',' :: pre, Or.inr (Or.inr ⟨pre, rfl, hne, hws⟩), rfl⟩
  · rintro ⟨si, hsi | ⟨hne, hws⟩ | ⟨w, hw, hne, hws⟩, rfl⟩
    · subst hsi
      exact Or.inl (matches_lit_iff.mpr rfl)
    · exact Or.inr (Or.inl (matches_ws_iff.mpr ⟨si, hne, hws, rfl⟩))
    · subst hw
      exact Or.inr (Or.inr ⟨w ++ r, matches_lit_iff.mpr rfl,
        matches_ws_iff.mpr ⟨w, hne, hws, rfl⟩⟩)

theorem matches_addressPat_iff {name phrase : String} {t r : List Char} :
    Matches (addressPat name phrase) t r ↔
      ∃ ni si pi, SpaceInst (pyLower name).data ni ∧ SepInst si ∧
        SpaceInst (pyLower phrase).data pi ∧ t = ni ++ si ++ pi ++ r := by
  rw [show addressPat name phrase = .seq (strPat (pyLower name).data)
    (.seq sepPat (strPat (pyLower phrase).data)) from rfl,
    matches_seq_iff]
  constructor
  · rintro ⟨m1, h1, h2⟩
    obtain ⟨ni, hni, rfl⟩ := (matches_strPat_iff _ _ _).mp h1
    obtain ⟨m2, hs, hp⟩ := matches_seq_iff.mp h2
    obtain ⟨si, hsi, rfl⟩ := matches_sepPat_iff.mp hs
    obtain ⟨pi, hpi, rfl⟩ := (matches_strPat_iff _ _ _).mp hp
    exact ⟨ni, si, pi, hni, hsi, hpi, by simp [List.append_assoc]⟩
  · rintro ⟨ni, si, pi, hni, hsi, hpi, rfl⟩
    exact ⟨si ++ (pi ++ r),
      (matches_strPat_iff _ _ _).mpr ⟨ni, hni, by simp [List.append_assoc]⟩,
      matches_seq_iff.mpr ⟨pi ++ r, matches_sepPat_iff.mpr ⟨si, hsi, rfl⟩,
        (matches_strPat_iff _ _ _).mpr ⟨pi, hpi, rfl⟩⟩⟩

/-- A successful address match exists iff the declarative decomposition
exists. -/
theorem addressSpec_iff_matches (name phrase text : String) :
    AddressSpec name phrase text ↔
      ∃ r, Matches (addressPat name phrase) (pyLower text).data r := by
  constructor
  · rintro ⟨ni, si, pi, rem, h1, h2, h3, h4⟩
    exact ⟨rem, matches_addressPat_iff.mpr ⟨ni, si, pi, h1, h2, h3, h4⟩⟩
  · rintro ⟨r, hr⟩
    obtain ⟨ni, si, pi, h1, h2, h3, h4⟩ := matches_addressPat_iff.mp hr
    exact ⟨ni, si, pi, r, h1, h2, h3, h4⟩

theorem pyLower_data (s : String) :
    (pyLower s).data = s.data.map Char.toLower := rfl

/-! ## Claim C3: the compiled address matcher -/

/-- C3 counterexample: the claim requires the separator to be exactly
one of `,`, one space, or comma-space.  But the code's
`.replace(" ", "\\s+")` applies to the whole concatenated pattern,
separators included, so `"bot,␣␣hello there"` (comma then *two*
spaces) matches with remainder `" there"`, while the matcher described
by the claim rejects it.  On the claim's own example the two agree. -/
theorem C3_counterexample :
    make_address_predicate "Bot" "hello" "bot,  hello there" =
      some " there" ∧
    claimed_address_matcher "Bot" "hello" "bot,  hello there" = none ∧
    claimed_address_matcher "Bot" "hello" "bot, hello there" =
      some " there" := by
  refine ⟨by decide, by decide, by decide⟩

/-- C3 (amended): the matcher succeeds iff the lowered text starts with
an instance of the lowered agent name, then one of the separators `,`,
one-or-more whitespace, or `,` followed by one-or-more whitespace (the
space-to-`\s+` substitution applies to the separators and the agent
name as well, not only to the phrase), then the lowered phrase with
every literal space matching one or more whitespace characters; on a
match the result is the portion of the original text after the matched
phrase, and on no match it is `None`.  In particular
`compile("Bot", "hello")` matches `"bot, hello there"` with remainder
`" there"`, and `compile("Bot", "hi")` does not match
`"hey bot hi"`. -/
theorem C3_address_matcher (name phrase text : String) :
    (make_address_predicate name phrase text ≠ none ↔
      AddressSpec name phrase text) ∧
    (∀ rem, make_address_predicate name phrase text = some rem →
      ∃ ni si pi r, SpaceInst (pyLower name).data ni ∧ SepInst si ∧
        SpaceInst (pyLower phrase).data pi ∧
        (pyLower text).data = ni ++ si ++ pi ++ r ∧
        rem = ⟨text.data.drop (ni.length + si.length + pi.length)⟩) ∧
    make_address_predicate "Bot" "hello" "bot, hello there" =
      some " there" ∧
    make_address_predicate "Bot" "hi" "hey bot hi" = none := by
  have hnone : make_address_predicate name phrase text = none ↔
      pyMatch (addressPat name phrase) (pyLower text).data = none := by
    unfold make_address_predicate
    cases pyMatch (addressPat name phrase) (pyLower text).data with
    | none => simp
    | some r => simp
  refine ⟨?_, ?_, by decide, by decide⟩
  · rw [Ne, hnone, pyMatch_eq_none_iff]
    simp only [not_forall, not_not]
    exact (addressSpec_iff_matches name phrase text).symm
  · intro rem hsome
    cases hp : pyMatch (addressPat name phrase) (pyLower text).data with
    | none =>
      rw [hnone.mpr hp] at hsome
      exact Option.noConfusion hsome
    | some r =>
      simp only [make_address_predicate, hp] at hsome
      obtain ⟨ni, si, pi, h1, h2, h3, h4⟩ :=
        matches_addressPat_iff.mp (pyMatch_eq_some_imp hp)
      refine ⟨ni, si, pi, r, h1, h2, h3, h4, ?_⟩
      have hlen := congrArg List.length h4
      simp only [pyLower_data, List.length_map, List.length_append] at hlen
      have hk : text.data.length - r.length =
          ni.length + si.length + pi.length := by omega
      rw [← Option.some.inj hsome, hk]

/-- Witness for C3: the canonical address `"bot, hello there"` admits
the declarative decomposition. -/
theorem C3_address_matcher_witness :
    AddressSpec "Bot" "hello" "bot, hello there" :=
  (C3_address_matcher "Bot" "hello" "bot, hello there").1.mp (by decide)

end Nebel
